import Mathlib

/-!
Verification development for the AI Feedback Analyzer backend.

The definitions below are a shallow embedding of the backend source:
the text preprocessing pipeline (`preprocessText`), the review batch
analyzer (`analyzeReviews`), the chunked recommendation generator
(`analyzeAndRecommend` with its helper `chunkArray`), and the two HTTP
handlers (`analyzeHandler` for POST /api/analyze after CSV parsing,
`recommendationsHandler` for POST /api/recommendations).

Modelling choices:
- JS strings are Lean `String`s (lists of characters); `String.toLowerCase`
  is modelled by mapping `Char.toLower` (ASCII case mapping), which agrees
  with JS on the ASCII range relevant to every claim.
- JS numbers (classifier scores) are modelled as rationals `ℚ`;
  `Math.round` is `⌊q + 1/2⌋`.
- The regex-based `.replace` calls in `preprocessText` are implemented as
  single-pass scanners with the same leftmost-match, ordered-alternative,
  greedy semantics as the source regexes.
- The external classifier and the generative model are oracles passed in as
  functions returning `Except`; a thrown JS error is the `Except.error` case.
- The `for` loop of `chunkArray` (which does not terminate for
  `size <= 0` on a nonempty array) is modelled by the fuel-indexed
  `chunkArrayLoop`; `none` means the fuel ran out, and a result that is
  `none` for every fuel is a non-terminating loop.
-/

/-- Character class of the JS regex `\s` (also the JS `String.trim` set):
space, tab, LF, VT, FF, CR, NBSP, and the Unicode space separators. -/
def jsWhitespace (c : Char) : Bool :=
  c == ' ' || c == '\t' || c == '\n' || c == '\x0b' || c == '\x0c' || c == '\r' ||
  c == '\u00A0' || c == '\u1680' || ('\u2000' ≤ c && c ≤ '\u200A') ||
  c == '\u2028' || c == '\u2029' || c == '\u202F' || c == '\u205F' ||
  c == '\u3000' || c == '\uFEFF'

/-- Head of the list exists and is not `\s` (used for the `\S+` part of the
URL regex, which needs at least one non-whitespace character). -/
def headNonWs : List Char → Bool
  | [] => false
  | c :: _ => !jsWhitespace c

/-- Does `http\S+|www\S+|https\S+` match at the start of `l`?  The regex
alternatives are tried in order; `https\S+` is listed for fidelity to the
source but is subsumed by `http\S+`. -/
def urlStartsAt (l : List Char) : Bool :=
  (("http".data).isPrefixOf l && headNonWs (l.drop 4)) ||
  (("www".data).isPrefixOf l && headNonWs (l.drop 3)) ||
  (("https".data).isPrefixOf l && headNonWs (l.drop 5))

/-- Scanner for `text.replace(/http\S+|www\S+|https\S+/g, '')`.
When `inTok` is true we are inside a matched URL token and consume
non-whitespace characters; otherwise we test for a match at the current
position and emit the character unchanged if there is none. -/
def removeUrlsGo : Bool → List Char → List Char
  | _, [] => []
  | true, c :: cs =>
    if jsWhitespace c then c :: removeUrlsGo false cs
    else removeUrlsGo true cs
  | false, c :: cs =>
    if urlStartsAt (c :: cs) then removeUrlsGo true cs
    else c :: removeUrlsGo false cs

/-- Embedding of `text.replace(/http\S+|www\S+|https\S+/g, '')`. -/
def removeUrls (l : List Char) : List Char := removeUrlsGo false l

/-- Character class of the JS regex `\w`. -/
def isWordChar (c : Char) : Bool :=
  ('a' ≤ c && c ≤ 'z') || ('A' ≤ c && c ≤ 'Z') || ('0' ≤ c && c ≤ '9') || c == '_'

/-- Head of the list exists and is a `\w` character. -/
def headWordChar : List Char → Bool
  | [] => false
  | c :: _ => isWordChar c

/-- Scanner for `text.replace(/@\w+|#\w+/g, '')`.  When `inTok` is true we
are inside the `\w+` run of a matched mention/hashtag token. -/
def removeMentionsGo : Bool → List Char → List Char
  | _, [] => []
  | inTok, c :: cs =>
    if inTok && isWordChar c then removeMentionsGo true cs
    else if (c == '@' || c == '#') && headWordChar cs then removeMentionsGo true cs
    else c :: removeMentionsGo false cs

/-- Embedding of `text.replace(/@\w+|#\w+/g, '')`. -/
def removeMentions (l : List Char) : List Char := removeMentionsGo false l

/-- Embedding of `text.replace(/[^a-z\s]/g, ' ')`: every character that is
not a lowercase ASCII letter and not `\s` becomes a single space. -/
def removeNonAlpha (l : List Char) : List Char :=
  l.map (fun c => if ('a' ≤ c && c ≤ 'z') || jsWhitespace c then c else ' ')

/-- Embedding of `text.replace(/\s+/g, ' ')`: each maximal run of `\s`
characters is replaced by one space. -/
def collapseWs : List Char → List Char
  | [] => []
  | [c] => if jsWhitespace c then [' '] else [c]
  | c1 :: c2 :: rest =>
    if jsWhitespace c1 && jsWhitespace c2 then collapseWs (c2 :: rest)
    else (if jsWhitespace c1 then ' ' else c1) :: collapseWs (c2 :: rest)

/-- Embedding of `String.prototype.trim`. -/
def trimWs (l : List Char) : List Char :=
  ((l.dropWhile jsWhitespace).reverse.dropWhile jsWhitespace).reverse

/-- Embedding of `preprocessText` from the sentiment service: lowercase,
strip URLs, strip mentions/hashtags, replace other non-letter characters by
spaces, collapse whitespace, trim. -/
def preprocessText (s : String) : String :=
  String.mk (trimWs (collapseWs (removeNonAlpha (removeMentions (removeUrls
    ((s.data).map Char.toLower))))))


/-- JS `String.prototype.toLowerCase`, restricted to the ASCII case mapping. -/
def jsToLower (s : String) : String := String.mk (s.data.map Char.toLower)

/-- JS `String.prototype.trim`. -/
def jsTrim (s : String) : String := String.mk (trimWs s.data)

/-- JS `String.prototype.includes`. -/
def strIncludes (s sub : String) : Bool := decide (sub.data <:+: s.data)

/-- JS `str.slice(0, 512)` used to truncate the normalized text to the
model context window. -/
def truncate512 (s : String) : String := String.mk (s.data.take 512)

/-- JS `Math.round`: nearest integer, halves toward positive infinity. -/
def jsRound (q : ℚ) : ℤ := Rat.floor (q + Rat.divInt 1 2)

/-- JS `Math.round(score * 1000) / 1000`: round to 3 decimal places
(`Rat.divInt` is exact division, which agrees with JS here). -/
def round3 (q : ℚ) : ℚ := Rat.divInt (jsRound (q * Rat.divInt 1000 1)) 1000

/-- Source constant `NEUTRAL_SCORE_THRESHOLD = 0.80`. -/
def NEUTRAL_SCORE_THRESHOLD : ℚ := Rat.divInt 4 5

/-- The three sentiment categories produced by the analyzer. -/
inductive Sentiment where
  | positive
  | neutral
  | negative
deriving DecidableEq, Repr

/-- One element of the array returned by the classifier pipeline: a raw
label together with its confidence score. -/
structure LabelScore where
  label : String
  score : ℚ
deriving DecidableEq, Repr

/-- The record pushed onto `results` for each surviving review. -/
structure AnalyzedReview where
  originalReview : String
  cleanedText : String
  sentiment : Sentiment
  confidence : ℚ
deriving DecidableEq, Repr

/-- Embedding of ``result?.[0]?.label?.toLowerCase() || 'neutral'``:
lowercased label of the first element, defaulting to `"neutral"` when the
array is empty or the lowercased label is the empty string (falsy). -/
def effLabel (out : List LabelScore) : String :=
  match out.head? with
  | some ls => if jsToLower ls.label == "" then "neutral" else jsToLower ls.label
  | none => "neutral"

/-- Embedding of ``result?.[0]?.score ?? 0``. -/
def effScore (out : List LabelScore) : ℚ :=
  match out.head? with
  | some ls => ls.score
  | none => 0

/-- Label mapping block of `analyzeReviews`: substring tests for
`neg`/`neu`/`pos` in order, with `neutral` as the fallback. -/
def mapLabel (label : String) : Sentiment :=
  if strIncludes label "neg" then Sentiment.negative
  else if strIncludes label "neu" then Sentiment.neutral
  else if strIncludes label "pos" then Sentiment.positive
  else Sentiment.neutral

/-- Body of the `for` loop of `analyzeReviews` for a single review.
`none` models both `continue` paths: a review whose cleaned text is empty,
and a review on which the classifier call threw. -/
def analyzeOne (pipe : String → Except String (List LabelScore))
    (review : String) : Option AnalyzedReview :=
  let cleaned := preprocessText review
  if cleaned == "" then none
  else
    match pipe (truncate512 cleaned) with
    | Except.error _ => none
    | Except.ok out =>
      let normalized := mapLabel (effLabel out)
      let final :=
        if normalized ≠ Sentiment.neutral ∧ effScore out < NEUTRAL_SCORE_THRESHOLD
        then Sentiment.neutral else normalized
      some ⟨review, cleaned, final, round3 (effScore out)⟩

/-- Embedding of `analyzeReviews` from the sentiment service, parametrized
by the classifier oracle `pipe`. -/
def analyzeReviews (pipe : String → Except String (List LabelScore)) :
    List String → List AnalyzedReview
  | [] => []
  | r :: rest =>
    match analyzeOne pipe r with
    | none => analyzeReviews pipe rest
    | some a => a :: analyzeReviews pipe rest

/-- PapaParse row-object field access `row[reviewColumn]`: a row is the
list of (header, cell) pairs of one CSV line. -/
def rowGet (row : List (String × String)) (k : String) : Option String :=
  (row.find? (fun p => p.1 == k)).map (fun p => p.2)

/-- Embedding of `Object.keys(data[0] || {})`. -/
def headersOf (rows : List (List (String × String))) : List String :=
  ((rows.head?).getD []).map (fun p => p.1)

/-- The filter `review && review.trim() !== ''` applied to one extracted
cell (`none` models an `undefined` cell). -/
def truthyNonBlank (o : Option String) : Option String :=
  match o with
  | none => none
  | some s => if !(s == "") && !(jsTrim s == "") then some s else none

/-- Embedding of
`data.map(row => row[reviewColumn]).filter(review => review && review.trim() !== '')`. -/
def extractReviews (rows : List (List (String × String))) (col : String) :
    List String :=
  rows.filterMap (fun row => truthyNonBlank (rowGet row col))

/-- Responses of the POST /api/analyze handler after CSV parsing succeeded. -/
inductive AnalyzeResponse where
  | missingColumn (availableColumns : List String)
  | noValidReviews
  | success (totalReviews : ℕ) (results : List AnalyzedReview)
deriving DecidableEq, Repr

/-- Embedding of the POST /api/analyze handler body, from
`const data = parseResult.data` on: find the review column
case-insensitively, extract and filter the review cells, run the batch
analyzer, and report `totalReviews` and `results`. -/
def analyzeHandler (pipe : String → Except String (List LabelScore))
    (rows : List (List (String × String))) : AnalyzeResponse :=
  match (headersOf rows).find? (fun h => jsToLower h == "review") with
  | none => AnalyzeResponse.missingColumn (headersOf rows)
  | some col =>
    let reviews := extractReviews rows col
    if reviews.isEmpty then AnalyzeResponse.noValidReviews
    else AnalyzeResponse.success reviews.length (analyzeReviews pipe reviews)


/-- Observable external actions of the Chunker/Aggregator: one generative
call per chunk, the fixed inter-chunk delay, and the final aggregation call
(carrying the batch results the final prompt is built from). -/
inductive Event where
  | chunkCall (chunk : List String)
  | sleep (ms : ℕ)
  | finalCall (batchResults : List String)
deriving DecidableEq, Repr

/-- The per-chunk prompt template of `analyzeAndRecommend`. -/
def chunkPrompt (chunk : List String) : String :=
  "\nYou are an educational consultant analyzing student feedback. Below are " ++
  toString chunk.length ++ " negative reviews from students:\n\n" ++
  String.intercalate "\n" (chunk.enum.map (fun p => toString (p.1 + 1) ++ ". " ++ p.2)) ++
  "\n\nPlease provide:\n1. **Key Issues Identified**: Summarize the main problems mentioned\n2. **Common Themes**: What patterns do you see across these reviews?\n3. **Priority Areas**: What should be addressed first?\n4. **Specific Recommendations**: Actionable steps to improve\n\nKeep your analysis concise and actionable.\n"

/-- What gets pushed onto `batchResults` for chunk number `i` (0-based):
the response text on success, the placeholder string on error. -/
def batchText (gen : String → Except String String) (i : ℕ)
    (chunk : List String) : String :=
  match gen (chunkPrompt chunk) with
  | Except.ok t => t
  | Except.error e => "Error processing batch " ++ toString (i + 1) ++ ": " ++ e

/-- The chunk loop of `analyzeAndRecommend`: `i` is the index of the first
chunk of the remaining list, `n` the total number of chunks.  Returns the
`batchResults` array and the trace of external actions (a `sleep` is
attempted after every chunk except the last). -/
def runChunks (gen : String → Except String String) :
    List (List String) → ℕ → ℕ → List String × List Event
  | [], _, _ => ([], [])
  | c :: rest, i, n =>
    let prev := runChunks gen rest (i + 1) n
    (batchText gen i c :: prev.1,
     (Event.chunkCall c :: (if i < n - 1 then [Event.sleep 1000] else [])) ++ prev.2)

/-- The final aggregation prompt template of `analyzeAndRecommend`. -/
def finalPrompt (batchResults : List String) : String :=
  "\nBased on the following analyses of student feedback batches, provide a comprehensive summary with actionable recommendations:\n\n" ++
  String.intercalate "\n" (batchResults.enum.map
    (fun p => "\n### Batch " ++ toString (p.1 + 1) ++ " Analysis:\n" ++ p.2)) ++
  "\n\nPlease provide:\n1. **Overall Summary**: What are the most critical issues?\n2. **Top 5 Recommendations**: Prioritized, actionable steps\n3. **Quick Wins**: Easy improvements that can be implemented immediately\n4. **Long-term Strategy**: Structural changes for sustained improvement\n\nFormat your response in clear markdown.\n"

/-- The final aggregation step: on success return the response text, on
error fall back to `batchResults.join('\n\n---\n\n')`. -/
def finalText (gen : String → Except String String)
    (batchResults : List String) : String :=
  match gen (finalPrompt batchResults) with
  | Except.ok t => t
  | Except.error _ => String.intercalate "\n\n---\n\n" batchResults

/-- Chunk loop plus final aggregation of `analyzeAndRecommend`, given the
already-computed chunk list.  Returns the result text, the `batchResults`
array, and the trace of external actions. -/
def analyzeAndRecommendCore (gen : String → Except String String)
    (chunks : List (List String)) : String × List String × List Event :=
  let run := runChunks gen chunks 0 chunks.length
  (finalText gen run.1, run.1, run.2 ++ [Event.finalCall run.1])

/-- JS `Array.prototype.slice(s, e)` with integer arguments: negative
indices count from the end, and both are clamped to `[0, length]`. -/
def jsSlice {α : Type} (l : List α) (s e : ℤ) : List α :=
  let len : ℤ := l.length
  let k := if s < 0 then max (len + s) 0 else min s len
  let f := if e < 0 then max (len + e) 0 else min e len
  (l.take f.toNat).drop k.toNat

/-- The loop of `chunkArray`, fuel-indexed: state is the loop variable `i`
and the accumulated `chunks`; one unit of fuel is spent per loop test.
`none` means the fuel ran out before the loop exited — a result that is
`none` for every fuel is a non-terminating loop. -/
def chunkArrayLoop {α : Type} (array : List α) (size : ℤ) :
    ℕ → ℤ → List (List α) → Option (List (List α))
  | 0, _, _ => none
  | fuel + 1, i, acc =>
    if i < (array.length : ℤ) then
      chunkArrayLoop array size fuel (i + size) (acc ++ [jsSlice array i (i + size)])
    else some acc

/-- Embedding of `chunkArray(array, size)`:
`for (let i = 0; i < array.length; i += size) chunks.push(array.slice(i, i + size))`. -/
def chunkArray {α : Type} (array : List α) (size : ℤ) (fuel : ℕ) :
    Option (List (List α)) :=
  chunkArrayLoop array size fuel 0 []

/-- Closed form of `chunkArray` for positive `size`: contiguous chunks of
`size` elements, the last one possibly shorter.  (The `max 1` only serves
termination; for `1 ≤ size` it is the identity, and `chunkArrayLoop` is
proved to agree with this form.) -/
def chunkList {α : Type} : List α → ℤ → List (List α)
  | [], _ => []
  | a :: l, size =>
    (a :: l).take (max 1 size.toNat) ::
      chunkList (l.drop (max 1 size.toNat - 1)) size
termination_by l _ => l.length
decreasing_by simp [List.length_drop]; omega

/-- Embedding of `analyzeAndRecommend(reviews, chunkSize)`.  `hasKey`
models whether `process.env.GEMINI_API_KEY` is set; its absence is the only
`Except.error` outcome.  `none` propagates fuel exhaustion of the
`chunkArray` loop. -/
def analyzeAndRecommend (gen : String → Except String String) (hasKey : Bool)
    (reviews : List String) (chunkSize : ℤ) (fuel : ℕ) :
    Option (Except String (String × List String × List Event)) :=
  if hasKey then
    match chunkArray reviews chunkSize fuel with
    | none => none
    | some chunks => some (Except.ok (analyzeAndRecommendCore gen chunks))
  else some (Except.error "GEMINI_API_KEY not configured in environment variables")

/-- The parsed JSON body of POST /api/recommendations after applying the
destructuring defaults `maxReviews = 100`, `chunkSize = 50`;
`negativeReviews = none` models a missing or non-array field. -/
structure RecRequest where
  negativeReviews : Option (List String)
  maxReviews : ℤ
  chunkSize : ℤ

/-- Responses of the POST /api/recommendations handler. -/
inductive RecResponse where
  | badRequest (error : String)
  | okEmpty (message : String) (recommendations : String)
  | okReport (analyzedCount : ℕ) (recommendations : String)
  | serverError (message : String)
deriving DecidableEq, Repr

/-- Embedding of the POST /api/recommendations handler: validate
`negativeReviews`, short-circuit on the empty array with the canned
message, otherwise slice to `maxReviews` and run `analyzeAndRecommend`,
passing `chunkSize` through unvalidated.  The second component is the
trace of external generative actions performed. -/
def recommendationsHandler (gen : String → Except String String)
    (hasKey : Bool) (body : RecRequest) (fuel : ℕ) :
    Option (RecResponse × List Event) :=
  match body.negativeReviews with
  | none => some (RecResponse.badRequest "Invalid request: negativeReviews array required", [])
  | some nrs =>
    if nrs.isEmpty then
      some (RecResponse.okEmpty "No negative reviews to analyze"
        "All reviews are positive! Keep up the great work! 🎉", [])
    else
      let reviewsToAnalyze := jsSlice nrs 0 body.maxReviews
      match analyzeAndRecommend gen hasKey reviewsToAnalyze body.chunkSize fuel with
      | none => none
      | some (Except.error e) => some (RecResponse.serverError e, [])
      | some (Except.ok out) =>
        some (RecResponse.okReport reviewsToAnalyze.length out.1, out.2.2)


/-! Helper lemmas about the normalizer. -/

theorem dropWhile_head_false {p : Char → Bool} {l : List Char} {c : Char}
    (h : (l.dropWhile p).head? = some c) : p c = false := by
  have hm := List.head?_dropWhile_not p l
  rw [h] at hm
  exact hm

theorem trimWs_front (l : List Char) :
    trimWs l <+: l.dropWhile jsWhitespace := by
  have h3 : (l.dropWhile jsWhitespace).reverse.dropWhile jsWhitespace <:+
      (l.dropWhile jsWhitespace).reverse := List.dropWhile_suffix _
  have h4 := List.reverse_prefix.mpr h3
  rw [List.reverse_reverse] at h4
  exact h4

theorem trimWs_within (l : List Char) : trimWs l <:+: l :=
  (trimWs_front l).isInfix.trans (List.dropWhile_suffix _).isInfix

theorem trimWs_head {l : List Char} {c : Char}
    (h : (trimWs l).head? = some c) : jsWhitespace c = false := by
  obtain ⟨t, ht⟩ := trimWs_front l
  have hh : (l.dropWhile jsWhitespace).head? = some c := by
    rw [← ht]
    cases htw : trimWs l with
    | nil => rw [htw] at h; cases h
    | cons x xs =>
      rw [htw] at h
      simp only [List.head?_cons, Option.some.injEq] at h
      simp [h]
  exact dropWhile_head_false hh

theorem trimWs_getLast {l : List Char} {c : Char}
    (h : (trimWs l).getLast? = some c) : jsWhitespace c = false := by
  rw [trimWs, List.getLast?_reverse] at h
  exact dropWhile_head_false h

theorem removeNonAlpha_mem {l : List Char} {c : Char} (h : c ∈ removeNonAlpha l) :
    ('a' ≤ c ∧ c ≤ 'z') ∨ jsWhitespace c = true := by
  rw [removeNonAlpha] at h
  obtain ⟨d, _, hc⟩ := List.mem_map.mp h
  by_cases h1 : (('a' ≤ d && d ≤ 'z') || jsWhitespace d) = true
  · rw [if_pos h1] at hc
    subst hc
    rcases Bool.or_eq_true_iff.mp h1 with h2 | h2
    · exact Or.inl (by constructor <;> simp_all)
    · exact Or.inr h2
  · rw [if_neg h1] at hc
    subst hc
    exact Or.inr (by decide)

theorem collapseWs_mem : ∀ {l : List Char} {c : Char}, c ∈ collapseWs l →
    c = ' ' ∨ (c ∈ l ∧ jsWhitespace c = false)
  | [], c, h => by simp [collapseWs] at h
  | [a], c, h => by
    by_cases ha : jsWhitespace a = true
    · simp [collapseWs, ha] at h
      exact Or.inl h
    · simp [collapseWs, ha] at h
      subst h
      exact Or.inr ⟨List.mem_singleton.mpr rfl, by simpa using ha⟩
  | a :: b :: t, c, h => by
    rw [collapseWs] at h
    split at h
    · rcases collapseWs_mem h with h1 | ⟨h2, h3⟩
      · exact Or.inl h1
      · exact Or.inr ⟨List.mem_cons_of_mem a h2, h3⟩
    · rcases List.mem_cons.mp h with h1 | h1
      · by_cases hws : jsWhitespace a = true
        · rw [if_pos hws] at h1
          exact Or.inl h1
        · rw [if_neg hws] at h1
          subst h1
          exact Or.inr ⟨List.mem_cons_self _ _, by simpa using hws⟩
      · rcases collapseWs_mem h1 with h2 | ⟨h3, h4⟩
        · exact Or.inl h2
        · exact Or.inr ⟨List.mem_cons_of_mem a h3, h4⟩

theorem collapseWs_head_ws : ∀ (cs : List Char) (c : Char),
    jsWhitespace c = true → (collapseWs (c :: cs)).head? = some ' '
  | [], c, hc => by simp [collapseWs, hc]
  | b :: t, c, hc => by
    rw [collapseWs]
    by_cases hb : jsWhitespace b = true
    · rw [if_pos (by simp [hc, hb])]
      exact collapseWs_head_ws t b hb
    · rw [if_neg (by simp [hc, hb])]
      simp [hc]

theorem collapseWs_head_not_ws (t : List Char) (b : Char)
    (hb : jsWhitespace b = false) : (collapseWs (b :: t)).head? = some b := by
  cases t with
  | nil => simp [collapseWs, hb]
  | cons x xs =>
    rw [collapseWs]
    rw [if_neg (by simp [hb])]
    simp [hb]

theorem collapseWs_chain : ∀ (l : List Char),
    (collapseWs l).Chain' (fun a b => ¬(jsWhitespace a = true ∧ jsWhitespace b = true))
  | [] => by simp [collapseWs]
  | [c] => by
    by_cases hc : jsWhitespace c = true <;> simp [collapseWs, hc]
  | a :: b :: t => by
    rw [collapseWs]
    split
    · exact collapseWs_chain (b :: t)
    · next hcond =>
      rw [List.chain'_cons']
      refine ⟨?_, collapseWs_chain (b :: t)⟩
      intro y hy
      by_cases hwa : jsWhitespace a = true
      · have hwb : jsWhitespace b = false := by
          by_contra hb
          exact hcond (by simp [hwa, Bool.eq_true_of_not_eq_false hb])
        rw [collapseWs_head_not_ws t b hwb] at hy
        simp only [Option.mem_def, Option.some.injEq] at hy
        subst hy
        simp [hwb]
      · simp [hwa]

/-- Claim C3 (counterexample): contrary to the spec example, normalizing
`"Hi! @bob #great http://x.co"` does not yield `"hi great"` — the
`#great` hashtag token is removed wholesale by the `@\w+|#\w+` rule. -/
theorem C3_preprocess_example_refuted :
    preprocessText "Hi! @bob #great http://x.co" ≠ "hi great" := by decide

/-- Claim C3 (amended): `preprocessText` applied to the exact input string
`"Hi! @bob #great http://x.co"` returns the exact string `"hi"`. -/
theorem C3_preprocess_example_amended :
    preprocessText "Hi! @bob #great http://x.co" = "hi" := by decide

theorem chain_of_within {R : Char → Char → Prop} {l1 l2 : List Char}
    (h : List.Chain' R l2) (hw : l1 <:+: l2) : List.Chain' R l1 := by
  obtain ⟨s, t, hst⟩ := hw
  rw [← hst] at h
  have h2 : List.Chain' R (l1 ++ t) := by
    have h3 := h.drop s.length
    rwa [List.append_assoc, List.drop_left] at h3
  have h4 := h2.take l1.length
  rwa [List.take_left] at h4

/-- Claim C4: for every input string, the output of `preprocessText`
contains only lowercase ASCII letters and single spaces, with no leading
or trailing space and no two consecutive spaces. -/
theorem C4_normalize_output_shape (s : String) :
    (∀ c ∈ (preprocessText s).data, ('a' ≤ c ∧ c ≤ 'z') ∨ c = ' ') ∧
    (preprocessText s).data.head? ≠ some ' ' ∧
    (preprocessText s).data.getLast? ≠ some ' ' ∧
    (preprocessText s).data.Chain' (fun a b => ¬(a = ' ' ∧ b = ' ')) := by
  have hdata : (preprocessText s).data =
      trimWs (collapseWs (removeNonAlpha (removeMentions (removeUrls
        (s.data.map Char.toLower))))) := rfl
  refine ⟨?_, ?_, ?_, ?_⟩
  · intro c hc
    rw [hdata] at hc
    have h1 : c ∈ collapseWs (removeNonAlpha (removeMentions (removeUrls
        (s.data.map Char.toLower)))) := (trimWs_within _).sublist.subset hc
    rcases collapseWs_mem h1 with h2 | ⟨h3, h4⟩
    · exact Or.inr h2
    · rcases removeNonAlpha_mem h3 with h5 | h6
      · exact Or.inl h5
      · rw [h4] at h6
        cases h6
  · intro hh
    rw [hdata] at hh
    have h1 := trimWs_head hh
    have h2 : jsWhitespace ' ' = true := by decide
    rw [h1] at h2
    cases h2
  · intro hh
    rw [hdata] at hh
    have h1 := trimWs_getLast hh
    have h2 : jsWhitespace ' ' = true := by decide
    rw [h1] at h2
    cases h2
  · rw [hdata]
    have hch := collapseWs_chain (removeNonAlpha (removeMentions (removeUrls
      (s.data.map Char.toLower))))
    refine (chain_of_within hch (trimWs_within _)).imp ?_
    intro a b hab hcon
    exact hab ⟨by rw [hcon.1]; decide, by rw [hcon.2]; decide⟩

/-! Helper lemmas about the batch analyzer. -/

theorem analyzeOne_ok (pipe : String → Except String (List LabelScore))
    (r : String) (out : List LabelScore)
    (hne : preprocessText r ≠ "")
    (hp : pipe (truncate512 (preprocessText r)) = Except.ok out) :
    analyzeOne pipe r =
      some ⟨r, preprocessText r,
        (if mapLabel (effLabel out) ≠ Sentiment.neutral ∧
            effScore out < NEUTRAL_SCORE_THRESHOLD
         then Sentiment.neutral else mapLabel (effLabel out)),
        round3 (effScore out)⟩ := by
  rw [analyzeOne]
  rw [if_neg (by simpa using hne)]
  rw [hp]

theorem analyzeOne_some {pipe : String → Except String (List LabelScore)}
    {r : String} {a : AnalyzedReview} (h : analyzeOne pipe r = some a) :
    a.originalReview = r ∧ preprocessText r ≠ "" := by
  rw [analyzeOne] at h
  by_cases hc : (preprocessText r == "") = true
  · rw [if_pos hc] at h; cases h
  · rw [if_neg hc] at h
    refine ⟨?_, by simpa using hc⟩
    cases hp : pipe (truncate512 (preprocessText r)) with
    | error e => rw [hp] at h; cases h
    | ok out =>
      rw [hp] at h
      have h2 := Option.some.inj h
      rw [← h2]

theorem analyzeReviews_length_le (pipe : String → Except String (List LabelScore)) :
    ∀ l : List String, (analyzeReviews pipe l).length ≤ l.length
  | [] => Nat.le_refl 0
  | r :: rest => by
    rw [analyzeReviews]
    split
    · exact Nat.le_trans (analyzeReviews_length_le pipe rest) (Nat.le_succ _)
    · simpa using analyzeReviews_length_le pipe rest

theorem analyzeReviews_map_sublist (pipe : String → Except String (List LabelScore)) :
    ∀ l : List String,
      ((analyzeReviews pipe l).map (fun a => a.originalReview)).Sublist l
  | [] => List.nil_sublist _
  | r :: rest => by
    rw [analyzeReviews]
    split
    · exact (analyzeReviews_map_sublist pipe rest).cons r
    · next a h =>
      rw [List.map_cons, (analyzeOne_some h).1]
      exact (analyzeReviews_map_sublist pipe rest).cons₂ r

theorem analyzeReviews_mem {pipe : String → Except String (List LabelScore)}
    {l : List String} {a : AnalyzedReview} (h : a ∈ analyzeReviews pipe l) :
    preprocessText a.originalReview ≠ "" := by
  induction l with
  | nil => rw [analyzeReviews] at h; cases h
  | cons r rest ih =>
    rw [analyzeReviews] at h
    split at h
    · exact ih h
    · next a' heq =>
      rcases List.mem_cons.mp h with h1 | h1
      · subst h1
        obtain ⟨ho, hne⟩ := analyzeOne_some heq
        rw [ho]
        exact hne
      · exact ih h1

theorem length_filterMap_eq_countP {α β : Type} (f : α → Option β) :
    ∀ l : List α, (l.filterMap f).length = l.countP (fun x => (f x).isSome)
  | [] => rfl
  | x :: l => by
    rw [List.filterMap_cons, List.countP_cons]
    cases hf : f x with
    | none => simp [hf, length_filterMap_eq_countP f l]
    | some b => simp [hf, length_filterMap_eq_countP f l]

/-- Claim C1: whenever the classifier call succeeds on a surviving review,
the stored record keeps the raw score (rounded to 3 decimals) as its
confidence, and its sentiment is the mapped label overridden to neutral
exactly when the mapped label is not neutral and the score is strictly
below the 0.80 threshold. -/
theorem C1_threshold_policy (pipe : String → Except String (List LabelScore))
    (r : String) (rest : List String) (out : List LabelScore)
    (hne : preprocessText r ≠ "")
    (hp : pipe (truncate512 (preprocessText r)) = Except.ok out) :
    analyzeReviews pipe (r :: rest) =
      ⟨r, preprocessText r,
        (if mapLabel (effLabel out) ≠ Sentiment.neutral ∧
            effScore out < NEUTRAL_SCORE_THRESHOLD
         then Sentiment.neutral else mapLabel (effLabel out)),
        round3 (effScore out)⟩ :: analyzeReviews pipe rest := by
  rw [analyzeReviews, analyzeOne_ok pipe r out hne hp]

/-- Witness for C1: classifier label "Negative" with score 0.55 (= 11/20)
on the review "bad" is stored as neutral with confidence 0.55. -/
theorem C1_threshold_policy_witness :
    analyzeReviews (fun _ => Except.ok [⟨"Negative", Rat.divInt 11 20⟩]) ["bad"] =
      [⟨"bad", "bad", Sentiment.neutral, round3 (Rat.divInt 11 20)⟩] := by
  rw [C1_threshold_policy (fun _ => Except.ok [⟨"Negative", Rat.divInt 11 20⟩])
    "bad" [] [⟨"Negative", Rat.divInt 11 20⟩] (by decide) rfl]
  rfl

/-- Claim C2 (contradicted by the code): a CSV whose only header is
"Reviews" (capital R, plural) is rejected by the analyze handler with the
missing-column response instead of being analyzed — the handler accepts
only headers whose lowercase form is exactly "review", while the frontend
help text promises that "review" or "reviews" in any case is accepted. -/
theorem C2_reviews_header_rejected :
    analyzeHandler (fun _ => Except.ok [⟨"Positive", Rat.divInt 19 20⟩])
      [[("Reviews", "Great course")]] =
    AnalyzeResponse.missingColumn ["Reviews"] := by decide

/-- Claim C8: on a successful analyze response, `totalReviews` counts
exactly the rows with non-blank review cells, the results are at most that
many, they preserve the relative order of the surviving rows, and no
record comes from a review that normalizes to the empty string. -/
theorem C8_analyze_filtering (pipe : String → Except String (List LabelScore))
    (rows : List (List (String × String))) (col : String)
    (total : ℕ) (results : List AnalyzedReview)
    (hcol : (headersOf rows).find? (fun h => jsToLower h == "review") = some col)
    (h : analyzeHandler pipe rows = AnalyzeResponse.success total results) :
    total = rows.countP (fun row => (truthyNonBlank (rowGet row col)).isSome) ∧
    results.length ≤ total ∧
    (results.map (fun a => a.originalReview)).Sublist (extractReviews rows col) ∧
    ∀ a ∈ results, preprocessText a.originalReview ≠ "" := by
  simp only [analyzeHandler, hcol] at h
  by_cases he : (extractReviews rows col).isEmpty = true
  · rw [if_pos he] at h; cases h
  · rw [if_neg he] at h
    injection h with h1 h2
    refine ⟨?_, ?_, ?_, ?_⟩
    · rw [← h1, extractReviews]
      exact length_filterMap_eq_countP _ rows
    · rw [← h1, ← h2]
      exact analyzeReviews_length_le pipe _
    · rw [← h2]
      exact analyzeReviews_map_sublist pipe _
    · intro a ha
      rw [← h2] at ha
      exact analyzeReviews_mem ha

/-- Witness for C8 on a CSV with one good row, one blank row and one
all-punctuation row: total is 2, and only the good row yields a record. -/
theorem C8_analyze_filtering_witness :
    (2 = ([[("Review", "Good")], [("Review", "")], [("Review", "!!!")]] :
        List (List (String × String))).countP
        (fun row => (truthyNonBlank (rowGet row "Review")).isSome)) ∧
    ([⟨"Good", "good", Sentiment.positive, round3 (Rat.divInt 99 100)⟩] :
        List AnalyzedReview).length ≤ 2 ∧
    (([⟨"Good", "good", Sentiment.positive, round3 (Rat.divInt 99 100)⟩] :
        List AnalyzedReview).map (fun a => a.originalReview)).Sublist
      (extractReviews [[("Review", "Good")], [("Review", "")], [("Review", "!!!")]] "Review") ∧
    ∀ a ∈ ([⟨"Good", "good", Sentiment.positive, round3 (Rat.divInt 99 100)⟩] :
        List AnalyzedReview), preprocessText a.originalReview ≠ "" :=
  C8_analyze_filtering (fun _ => Except.ok [⟨"POSITIVE", Rat.divInt 99 100⟩])
    [[("Review", "Good")], [("Review", "")], [("Review", "!!!")]] "Review" 2
    [⟨"Good", "good", Sentiment.positive, round3 (Rat.divInt 99 100)⟩]
    (by decide) (by rfl)

/-! Helper lemmas about the chunk loop and `chunkArray`. -/

theorem runChunks_fst_length (gen : String → Except String String) :
    ∀ (chunks : List (List String)) (i n : ℕ),
      (runChunks gen chunks i n).1.length = chunks.length
  | [], _, _ => rfl
  | c :: rest, i, n => by
    rw [runChunks]
    simpa using runChunks_fst_length gen rest (i + 1) n

theorem runChunks_fst_get (gen : String → Except String String) :
    ∀ (chunks : List (List String)) (i n j : ℕ) (d : List String),
      chunks.get? j = some d →
      (runChunks gen chunks i n).1.get? j = some (batchText gen (i + j) d)
  | [], _, _, j, _, h => by cases h
  | c :: rest, i, n, 0, d, h => by
    rw [List.get?_cons_zero] at h
    have hd := Option.some.inj h
    subst hd
    rw [runChunks]
    simp
  | c :: rest, i, n, j + 1, d, h => by
    rw [List.get?_cons_succ] at h
    rw [runChunks]
    have hr := runChunks_fst_get gen rest (i + 1) n j d h
    have harith : i + 1 + j = i + (j + 1) := by omega
    rw [harith] at hr
    simpa using hr

theorem chunkList_cons {α : Type} (a : α) (t : List α) (size : ℤ) :
    chunkList (a :: t) size =
      (a :: t).take (max 1 size.toNat) ::
        chunkList ((a :: t).drop (max 1 size.toNat)) size := by
  rw [chunkList]
  obtain ⟨m, hm⟩ : ∃ m, max 1 size.toNat = m + 1 := ⟨max 1 size.toNat - 1, by omega⟩
  rw [hm]
  simp [List.drop_succ_cons]

theorem jsSlice_drop_take {α : Type} (l : List α) (i size : ℤ)
    (hi : 0 ≤ i) (hs : 0 ≤ size) :
    jsSlice l i (i + size) = (l.drop i.toNat).take size.toNat := by
  simp only [jsSlice]
  rw [if_neg (by omega), if_neg (by omega)]
  rcases le_or_lt (l.length : ℤ) i with hcase | hcase
  · have h1 : min i (l.length : ℤ) = (l.length : ℤ) := by omega
    have h2 : min (i + size) (l.length : ℤ) = (l.length : ℤ) := by omega
    rw [h1, h2]
    simp only [Int.toNat_ofNat]
    rw [List.take_length, List.drop_eq_nil_of_le (Nat.le_refl _)]
    rw [List.drop_eq_nil_of_le (by omega), List.take_nil]
  · have h1 : min i (l.length : ℤ) = i := by omega
    rw [h1]
    rcases le_or_lt (i + size) (l.length : ℤ) with hc2 | hc2
    · have h2 : min (i + size) (l.length : ℤ) = i + size := by omega
      rw [h2, List.take_drop]
      have h3 : (i + size).toNat = i.toNat + size.toNat := by omega
      rw [h3]
    · have h2 : min (i + size) (l.length : ℤ) = (l.length : ℤ) := by omega
      rw [h2]
      simp only [Int.toNat_ofNat]
      rw [List.take_length]
      rw [List.take_of_length_le (by rw [List.length_drop]; omega)]

theorem chunkArrayLoop_eq {α : Type} (l : List α) (size : ℤ) (hs : 1 ≤ size) :
    ∀ (fuel : ℕ) (i : ℤ) (acc : List (List α)), 0 ≤ i →
      l.length - i.toNat + 1 ≤ fuel →
      chunkArrayLoop l size fuel i acc =
        some (acc ++ chunkList (l.drop i.toNat) size) := by
  intro fuel
  induction fuel with
  | zero => intro i acc _ hf; omega
  | succ f ih =>
    intro i acc hi hf
    rw [chunkArrayLoop]
    by_cases hlt : i < (l.length : ℤ)
    · rw [if_pos hlt]
      have hslice := jsSlice_drop_take l i size hi (by omega)
      have hrec := ih (i + size) (acc ++ [jsSlice l i (i + size)]) (by omega) (by omega)
      rw [hrec, hslice]
      have hne : l.drop i.toNat ≠ [] := by
        intro hnil
        have := List.drop_eq_nil_iff.mp hnil
        omega
      obtain ⟨a, t, hat⟩ := List.exists_cons_of_ne_nil hne
      rw [hat, chunkList_cons]
      have hmax : max 1 size.toNat = size.toNat := by omega
      rw [hmax, ← hat]
      have hdrop : (l.drop i.toNat).drop size.toNat = l.drop (i + size).toNat := by
        rw [List.drop_drop]
        have h4 : i.toNat + size.toNat = (i + size).toNat := by omega
        rw [h4]
      rw [hdrop]
      simp
    · rw [if_neg hlt]
      have hdrop : l.drop i.toNat = [] :=
        List.drop_eq_nil_of_le (by omega)
      rw [hdrop, chunkList, List.append_nil]

theorem chunkArray_eq_chunkList {α : Type} (l : List α) (size : ℤ) (fuel : ℕ)
    (hs : 1 ≤ size) (hf : l.length + 1 ≤ fuel) :
    chunkArray l size fuel = some (chunkList l size) := by
  rw [chunkArray]
  have h := chunkArrayLoop_eq l size hs fuel 0 [] (le_refl 0) (by simpa using hf)
  simpa using h

theorem chunkList_flatten {α : Type} (size : ℤ) :
    ∀ (n : ℕ) (l : List α), l.length ≤ n → (chunkList l size).flatten = l
  | _, [], _ => by rw [chunkList]; rfl
  | 0, a :: t, h => by simp at h
  | n + 1, a :: t, h => by
    rw [chunkList_cons, List.flatten_cons]
    have hdn : ((a :: t).drop (max 1 size.toNat)).length ≤ n := by
      rw [List.length_drop]
      simp only [List.length_cons]
      simp only [List.length_cons] at h
      omega
    rw [chunkList_flatten size n _ hdn]
    exact List.take_append_drop _ _

theorem chunkList_length {α : Type} (size : ℤ) (hs : 1 ≤ size) :
    ∀ (n : ℕ) (l : List α), l.length ≤ n →
      (chunkList l size).length = (l.length + size.toNat - 1) / size.toNat
  | _, [], _ => by
    rw [chunkList]
    simp [Nat.div_eq_of_lt (show size.toNat - 1 < size.toNat by omega)]
  | 0, a :: t, h => by simp at h
  | n + 1, a :: t, h => by
    have hmax : max 1 size.toNat = size.toNat := by omega
    have hk1 : 1 ≤ size.toNat := by omega
    rw [chunkList_cons, hmax]
    have hdn : ((a :: t).drop size.toNat).length ≤ n := by
      rw [List.length_drop]
      simp only [List.length_cons]
      simp only [List.length_cons] at h
      omega
    simp only [List.length_cons]
    rw [chunkList_length size hs n _ hdn]
    rw [List.length_drop]
    simp only [List.length_cons]
    set m := t.length
    set k := size.toNat with hk
    rcases le_or_lt k (m + 1) with hkm | hkm
    · have e1 : m + 1 - k + k - 1 = m := by omega
      have e2 : m + 1 + k - 1 = m + k := by omega
      rw [e1, e2, Nat.add_div_right _ (by omega)]
    · have e3 : m + 1 - k + k - 1 = k - 1 := by omega
      have e4 : m + 1 + k - 1 = m + k := by omega
      rw [e3, e4, Nat.add_div_right _ (by omega)]
      rw [Nat.div_eq_of_lt (by omega), Nat.div_eq_of_lt (by omega)]

theorem chunkArrayLoop_none {α : Type} (l : List α) (size : ℤ)
    (hsz : size ≤ 0) (hl : l ≠ []) :
    ∀ (fuel : ℕ) (i : ℤ), i ≤ 0 → ∀ (acc : List (List α)),
      chunkArrayLoop l size fuel i acc = none
  | 0, _, _, _ => rfl
  | fuel + 1, i, hi, acc => by
    rw [chunkArrayLoop]
    have hlen : 1 ≤ l.length := List.length_pos.mpr hl
    rw [if_pos (by omega)]
    exact chunkArrayLoop_none l size hsz hl fuel (i + size) (by omega) _

theorem jsSlice_zero_ne_nil {α : Type} (l : List α) (m : ℤ)
    (hl : l ≠ []) (hm : 1 ≤ m) : jsSlice l 0 m ≠ [] := by
  simp only [jsSlice]
  rw [if_neg (by omega), if_neg (by omega)]
  have hlen : 1 ≤ l.length := List.length_pos.mpr hl
  have h1 : min (0 : ℤ) (l.length : ℤ) = 0 := by omega
  rw [h1]
  intro hnil
  rw [List.drop_eq_nil_iff] at hnil
  rw [List.length_take] at hnil
  simp only [Int.toNat_zero] at hnil
  omega

theorem chunkList_ne_nil {α : Type} {l : List α} (h : l ≠ []) (size : ℤ) :
    chunkList l size =
      l.take (max 1 size.toNat) :: chunkList (l.drop (max 1 size.toNat)) size := by
  obtain ⟨a, t, hat⟩ := List.exists_cons_of_ne_nil h
  rw [hat, chunkList_cons]

/-- Claim C5: for 120 negative reviews and chunk size 50, the pipeline
performs exactly 3 chunk calls on contiguous order-preserving chunks of
sizes 50, 50 and 20, then exactly 1 final aggregation call, in that order,
with a pause attempted between consecutive chunk calls but not after the
last chunk and not after the aggregation call. -/
theorem C5_chunk_trace (gen : String → Except String String)
    (reviews : List String) (fuel : ℕ)
    (h120 : reviews.length = 120) (hfuel : reviews.length + 1 ≤ fuel) :
    analyzeAndRecommend gen true reviews 50 fuel =
      some (Except.ok
        (finalText gen
          [batchText gen 0 (reviews.take 50),
           batchText gen 1 ((reviews.drop 50).take 50),
           batchText gen 2 (reviews.drop 100)],
         [batchText gen 0 (reviews.take 50),
          batchText gen 1 ((reviews.drop 50).take 50),
          batchText gen 2 (reviews.drop 100)],
         [Event.chunkCall (reviews.take 50), Event.sleep 1000,
          Event.chunkCall ((reviews.drop 50).take 50), Event.sleep 1000,
          Event.chunkCall (reviews.drop 100),
          Event.finalCall
            [batchText gen 0 (reviews.take 50),
             batchText gen 1 ((reviews.drop 50).take 50),
             batchText gen 2 (reviews.drop 100)]])) ∧
    (reviews.take 50).length = 50 ∧
    ((reviews.drop 50).take 50).length = 50 ∧
    (reviews.drop 100).length = 20 ∧
    reviews.take 50 ++ ((reviews.drop 50).take 50 ++ reviews.drop 100) = reviews := by
  have h50 : max 1 ((50 : ℤ).toNat) = 50 := by decide
  have hlen50 : (reviews.drop 50).length = 70 := by rw [List.length_drop, h120]
  have hlen100 : (reviews.drop 100).length = 20 := by rw [List.length_drop, h120]
  have hne1 : reviews ≠ [] := by
    intro hn; rw [hn] at h120; cases h120
  have hne2 : reviews.drop 50 ≠ [] := by
    intro hn; rw [hn] at hlen50; cases hlen50
  have hne3 : reviews.drop 100 ≠ [] := by
    intro hn; rw [hn] at hlen100; cases hlen100
  have hdd : (reviews.drop 50).drop 50 = reviews.drop 100 := by
    rw [List.drop_drop]
  have hchunks : chunkList reviews 50 =
      [reviews.take 50, (reviews.drop 50).take 50, reviews.drop 100] := by
    rw [chunkList_ne_nil hne1, h50]
    rw [chunkList_ne_nil hne2, h50]
    rw [hdd]
    rw [chunkList_ne_nil hne3, h50]
    have htk : (reviews.drop 100).take 50 = reviews.drop 100 :=
      List.take_of_length_le (by rw [hlen100]; omega)
    have hd150 : (reviews.drop 100).drop 50 = [] :=
      List.drop_eq_nil_of_le (by rw [hlen100]; omega)
    rw [htk, hd150, chunkList]
  refine ⟨?_, ?_, ?_, ?_, ?_⟩
  · have hif : analyzeAndRecommend gen true reviews 50 fuel =
        match chunkArray reviews 50 fuel with
        | none => none
        | some chunks => some (Except.ok (analyzeAndRecommendCore gen chunks)) := rfl
    rw [hif, chunkArray_eq_chunkList reviews 50 fuel (by norm_num) hfuel, hchunks]
    rfl
  · rw [List.length_take, h120]
    omega
  · rw [List.length_take, hlen50]
    omega
  · exact hlen100
  · rw [← hdd, List.take_append_drop, List.take_append_drop]

/-- Witness for C5 at 120 copies of the review "bad" and fuel 121. -/
theorem C5_chunk_trace_witness :
    analyzeAndRecommend (fun _ => Except.ok "ok") true (List.replicate 120 "bad") 50 121 =
      some (Except.ok
        (finalText (fun _ => Except.ok "ok")
          [batchText (fun _ => Except.ok "ok") 0 ((List.replicate 120 "bad").take 50),
           batchText (fun _ => Except.ok "ok") 1 (((List.replicate 120 "bad").drop 50).take 50),
           batchText (fun _ => Except.ok "ok") 2 ((List.replicate 120 "bad").drop 100)],
         [batchText (fun _ => Except.ok "ok") 0 ((List.replicate 120 "bad").take 50),
          batchText (fun _ => Except.ok "ok") 1 (((List.replicate 120 "bad").drop 50).take 50),
          batchText (fun _ => Except.ok "ok") 2 ((List.replicate 120 "bad").drop 100)],
         [Event.chunkCall ((List.replicate 120 "bad").take 50), Event.sleep 1000,
          Event.chunkCall (((List.replicate 120 "bad").drop 50).take 50), Event.sleep 1000,
          Event.chunkCall ((List.replicate 120 "bad").drop 100),
          Event.finalCall
            [batchText (fun _ => Except.ok "ok") 0 ((List.replicate 120 "bad").take 50),
             batchText (fun _ => Except.ok "ok") 1 (((List.replicate 120 "bad").drop 50).take 50),
             batchText (fun _ => Except.ok "ok") 2 ((List.replicate 120 "bad").drop 100)]])) ∧
    ((List.replicate 120 "bad").take 50).length = 50 ∧
    (((List.replicate 120 "bad").drop 50).take 50).length = 50 ∧
    ((List.replicate 120 "bad").drop 100).length = 20 ∧
    (List.replicate 120 "bad").take 50 ++
      (((List.replicate 120 "bad").drop 50).take 50 ++ (List.replicate 120 "bad").drop 100) =
      List.replicate 120 "bad" :=
  C5_chunk_trace (fun _ => Except.ok "ok") (List.replicate 120 "bad") 121
    (by simp) (by simp)

/-- Claim C6: if the generative call for chunk `i` throws, the batch
results still contain exactly one entry per chunk in chunk order, the
failing chunk contributes the placeholder naming its batch number and the
error message, and every chunk whose call succeeds keeps its own text. -/
theorem C6_chunk_failure_nonfatal (gen : String → Except String String)
    (chunks : List (List String)) (i : ℕ) (c : List String) (e : String)
    (hc : chunks.get? i = some c)
    (he : gen (chunkPrompt c) = Except.error e) :
    ((analyzeAndRecommendCore gen chunks).2.1).length = chunks.length ∧
    ((analyzeAndRecommendCore gen chunks).2.1).get? i =
      some ("Error processing batch " ++ toString (i + 1) ++ ": " ++ e) ∧
    ∀ (j : ℕ) (d : List String), chunks.get? j = some d →
      ((analyzeAndRecommendCore gen chunks).2.1).get? j = some (batchText gen j d) := by
  have hcore : (analyzeAndRecommendCore gen chunks).2.1 =
      (runChunks gen chunks 0 chunks.length).1 := rfl
  refine ⟨?_, ?_, ?_⟩
  · rw [hcore]
    exact runChunks_fst_length gen chunks 0 chunks.length
  · rw [hcore]
    have hg := runChunks_fst_get gen chunks 0 chunks.length i c hc
    rw [Nat.zero_add] at hg
    rw [hg, batchText, he]
  · intro j d hd
    rw [hcore]
    have hg := runChunks_fst_get gen chunks 0 chunks.length j d hd
    rw [Nat.zero_add] at hg
    exact hg

/-- Witness for C6 on one single-review chunk whose call throws "boom". -/
theorem C6_chunk_failure_nonfatal_witness :
    ((analyzeAndRecommendCore (fun _ => Except.error "boom") [["a"]]).2.1).length =
      ([["a"]] : List (List String)).length ∧
    ((analyzeAndRecommendCore (fun _ => Except.error "boom") [["a"]]).2.1).get? 0 =
      some ("Error processing batch " ++ toString (0 + 1) ++ ": " ++ "boom") ∧
    ∀ (j : ℕ) (d : List String), ([["a"]] : List (List String)).get? j = some d →
      ((analyzeAndRecommendCore (fun _ => Except.error "boom") [["a"]]).2.1).get? j =
        some (batchText (fun _ => Except.error "boom") j d) :=
  C6_chunk_failure_nonfatal (fun _ => Except.error "boom") [["a"]] 0 ["a"] "boom" rfl rfl

/-- Claim C7: if the final aggregation call fails, `analyzeAndRecommend`
returns the per-chunk texts joined by the visible divider instead of
propagating the failure; and with the API key present, a positive chunk
size and enough fuel it always returns an `ok` result at this stage. -/
theorem C7_final_fallback :
    (∀ (gen : String → Except String String) (chunks : List (List String)) (e : String),
      gen (finalPrompt (runChunks gen chunks 0 chunks.length).1) = Except.error e →
      (analyzeAndRecommendCore gen chunks).1 =
        String.intercalate "\n\n---\n\n" (runChunks gen chunks 0 chunks.length).1) ∧
    (∀ (gen : String → Except String String) (reviews : List String)
        (chunkSize : ℤ) (fuel : ℕ), 1 ≤ chunkSize → reviews.length + 1 ≤ fuel →
      analyzeAndRecommend gen true reviews chunkSize fuel =
        some (Except.ok (analyzeAndRecommendCore gen (chunkList reviews chunkSize)))) := by
  constructor
  · intro gen chunks e he
    have h1 : (analyzeAndRecommendCore gen chunks).1 =
        finalText gen (runChunks gen chunks 0 chunks.length).1 := rfl
    rw [h1, finalText, he]
  · intro gen reviews chunkSize fuel hs hf
    have hif : analyzeAndRecommend gen true reviews chunkSize fuel =
        match chunkArray reviews chunkSize fuel with
        | none => none
        | some chunks => some (Except.ok (analyzeAndRecommendCore gen chunks)) := rfl
    rw [hif, chunkArray_eq_chunkList reviews chunkSize fuel hs hf]

/-- Witness for C7: a generative oracle that always throws, on one chunk. -/
theorem C7_final_fallback_witness :
    (analyzeAndRecommendCore (fun _ => Except.error "boom") [["a"]]).1 =
      String.intercalate "\n\n---\n\n"
        (runChunks (fun _ => Except.error "boom") [["a"]] 0
          ([["a"]] : List (List String)).length).1 ∧
    analyzeAndRecommend (fun _ => Except.error "boom") true ["a"] 1 2 =
      some (Except.ok (analyzeAndRecommendCore (fun _ => Except.error "boom")
        (chunkList ["a"] 1))) :=
  ⟨C7_final_fallback.1 (fun _ => Except.error "boom") [["a"]] "boom" rfl,
   C7_final_fallback.2 (fun _ => Except.error "boom") ["a"] 1 2 (by decide) (by decide)⟩

/-- Claim C9: an empty `negativeReviews` array makes the recommendations
handler answer success with the canned positive string and an empty trace
of external generative actions, for every oracle, key state, `maxReviews`,
`chunkSize` and fuel. -/
theorem C9_empty_negative_reviews (gen : String → Except String String)
    (hasKey : Bool) (maxReviews chunkSize : ℤ) (fuel : ℕ) :
    recommendationsHandler gen hasKey ⟨some [], maxReviews, chunkSize⟩ fuel =
      some (RecResponse.okEmpty "No negative reviews to analyze"
        "All reviews are positive! Keep up the great work! 🎉", []) := rfl

/-- Claim C10: `chunkArray` terminates for `chunkSize ≥ 1` with
`⌈n / chunkSize⌉` contiguous chunks that concatenate to the input; for a
nonempty array and `chunkSize ≤ 0` its loop never terminates (no fuel
suffices); and the recommendations handler forwards the client-supplied
`chunkSize` into that loop unvalidated, so such a request never finishes. -/
theorem C10_chunkArray_totality :
    (∀ (l : List String) (chunkSize : ℤ) (fuel : ℕ),
      1 ≤ chunkSize → l.length + 1 ≤ fuel →
      chunkArray l chunkSize fuel = some (chunkList l chunkSize) ∧
      (chunkList l chunkSize).length = (l.length + chunkSize.toNat - 1) / chunkSize.toNat ∧
      (chunkList l chunkSize).flatten = l) ∧
    (∀ (l : List String) (chunkSize : ℤ) (fuel : ℕ),
      chunkSize ≤ 0 → l ≠ [] → chunkArray l chunkSize fuel = none) ∧
    (∀ (gen : String → Except String String) (nrs : List String)
        (maxReviews chunkSize : ℤ) (fuel : ℕ),
      nrs ≠ [] → 1 ≤ maxReviews → chunkSize ≤ 0 →
      recommendationsHandler gen true ⟨some nrs, maxReviews, chunkSize⟩ fuel = none) := by
  refine ⟨?_, ?_, ?_⟩
  · intro l chunkSize fuel hs hf
    exact ⟨chunkArray_eq_chunkList l chunkSize fuel hs hf,
      chunkList_length chunkSize hs l.length l (le_refl _),
      chunkList_flatten chunkSize l.length l (le_refl _)⟩
  · intro l chunkSize fuel hsz hl
    exact chunkArrayLoop_none l chunkSize hsz hl fuel 0 (le_refl 0) []
  · intro gen nrs maxReviews chunkSize fuel hnil hmax hsz
    have hsl : jsSlice nrs 0 maxReviews ≠ [] := jsSlice_zero_ne_nil nrs maxReviews hnil hmax
    have hemp : nrs.isEmpty = false := by
      cases nrs with
      | nil => exact absurd rfl hnil
      | cons a t => rfl
    have hred : recommendationsHandler gen true ⟨some nrs, maxReviews, chunkSize⟩ fuel =
        (if nrs.isEmpty then
          some (RecResponse.okEmpty "No negative reviews to analyze"
            "All reviews are positive! Keep up the great work! 🎉", [])
        else
          match analyzeAndRecommend gen true (jsSlice nrs 0 maxReviews) chunkSize fuel with
          | none => none
          | some (Except.error e) => some (RecResponse.serverError e, [])
          | some (Except.ok out) =>
            some (RecResponse.okReport (jsSlice nrs 0 maxReviews).length out.1, out.2.2)) := rfl
    rw [hred, if_neg (by simp [hemp])]
    have hstep : analyzeAndRecommend gen true (jsSlice nrs 0 maxReviews) chunkSize fuel = none := by
      have hnone := chunkArrayLoop_none (jsSlice nrs 0 maxReviews) chunkSize hsz hsl
        fuel 0 (le_refl 0) []
      have hif : analyzeAndRecommend gen true (jsSlice nrs 0 maxReviews) chunkSize fuel =
          match chunkArray (jsSlice nrs 0 maxReviews) chunkSize fuel with
          | none => none
          | some chunks => some (Except.ok (analyzeAndRecommendCore gen chunks)) := rfl
      rw [hif, chunkArray, hnone]
    rw [hstep]

/-- Witness for C10 on a 3-element array with chunk size 2, a singleton
array with chunk size 0, and a stuck recommendations request. -/
theorem C10_chunkArray_totality_witness :
    (chunkArray ["a", "b", "c"] 2 4 = some (chunkList ["a", "b", "c"] 2) ∧
      (chunkList ["a", "b", "c"] 2).length =
        ((["a", "b", "c"] : List String).length + (2 : ℤ).toNat - 1) / (2 : ℤ).toNat ∧
      (chunkList ["a", "b", "c"] 2).flatten = ["a", "b", "c"]) ∧
    chunkArray ["a"] 0 5 = none ∧
    recommendationsHandler (fun _ => Except.ok "x") true ⟨some ["a"], 100, 0⟩ 7 = none :=
  ⟨C10_chunkArray_totality.1 ["a", "b", "c"] 2 4 (by decide) (by decide),
   C10_chunkArray_totality.2.1 ["a"] 0 5 (by decide) (by decide),
   C10_chunkArray_totality.2.2 (fun _ => Except.ok "x") ["a"] 100 0 7
     (by decide) (by decide) (by decide)⟩
